import Mathlib

/-!
Verification of the `stpro` desync proxy core (Rust sources `src/config.rs`,
`src/packets.rs`, `src/desync.rs`, `src/proxy.rs`) against its natural-language
specification.

Modelling conventions:
* Byte buffers (`&[u8]`, `Vec<u8>`) are `List Nat`; every byte read from a
  buffer in the Rust code is modelled with `List.getD _ _ 0`, and each such
  access is performed only under the same bounds checks the Rust code makes.
* `usize` values are `Nat`; `i64` values are `Int`.  Rust's `i64` division
  truncates toward zero, which is `Int.tdiv`.  `x as u8` is `x % 256`,
  `x >> 8` is `x >>> 8`.  A `usize` subtraction `a - b` appears either where
  the code has established `b ≤ a` (then `Nat` subtraction agrees with it) or
  is modelled as a checked subtraction whose underflow is an arithmetic
  overflow abort (Rust debug builds panic there; release builds wrap, either
  way the numeric result `a - b` the surrounding code expects does not exist).
* Stream writes (`write_all`) are modelled by accumulating the written chunks
  in order into a `List (List Nat)`; `flush` has no observable effect on the
  byte sequence and is dropped.  A fallible stream is modelled by a predicate
  saying which write call succeeds (see `runWrites`).
-/

namespace Stpro

/-! ### Data model, from `src/config.rs` -/

/-- `SplitFlags` (config.rs lines 31-37). `end` is a Lean keyword, the field is
named `end_`. -/
structure SplitFlags where
  sni : Bool
  host : Bool
  end_ : Bool
  middle : Bool
deriving Repr, DecidableEq

/-- `SplitConfig` (config.rs lines 23-29). -/
structure SplitConfig where
  offset : Int
  flags : SplitFlags
  repeats : Option Nat
  skip : Option Nat
deriving Repr, DecidableEq

/-- `FakeConfig` (config.rs lines 39-44). -/
structure FakeConfig where
  split : SplitConfig
  ttl : Option Nat
  data : Option (List Nat)
deriving Repr, DecidableEq

/-- `AutoDetect` (config.rs lines 52-58). -/
inductive AutoDetect where
  | torst
  | redirect
  | sslErr
  | none
deriving Repr, DecidableEq

/-- `AutoConfig` (config.rs lines 46-50). -/
structure AutoConfig where
  detect : List AutoDetect
  timeout : Option Nat
deriving Repr, DecidableEq

/-- `DesyncConfig` (config.rs lines 13-21). -/
structure DesyncConfig where
  split : List SplitConfig
  disorder : List SplitConfig
  fake : List FakeConfig
  tls_rec : List SplitConfig
  ttl : Option Nat
  auto : Option AutoConfig
deriving Repr, DecidableEq

/-! ### Packet inspection, from `src/packets.rs` -/

/-- Big-endian `u16::from_be_bytes([a, b])` on byte values. -/
def be16 (a b : Nat) : Nat := 256 * a + b

/-- `is_tls_chello` (packets.rs lines 4-16): length ≥ 5, content type 0x16,
version in [0x0301, 0x0304]. -/
def is_tls_chello (buffer : List Nat) : Bool :=
  if buffer.length < 5 then false
  else
    let content_type := buffer.getD 0 0
    let version := be16 (buffer.getD 1 0) (buffer.getD 2 0)
    content_type == 0x16 && 0x0301 ≤ version && version ≤ 0x0304

/-- The extension-scanning `while` loop of `find_sni_offset`
(packets.rs lines 110-139).  Each `break` of the Rust loop falls through to
the function's final `None`, so it is modelled as returning `none`. -/
def sniExtLoop (buffer : List Nat) (extensions_end : Nat) (offset : Nat) :
    Option Nat :=
  if _h : offset < extensions_end ∧ offset < buffer.length - 4 then
    let ext_type := be16 (buffer.getD offset 0) (buffer.getD (offset + 1) 0)
    let o1 := offset + 2
    if buffer.length < o1 + 2 then none
    else
      let ext_len := be16 (buffer.getD o1 0) (buffer.getD (o1 + 1) 0)
      let o2 := o1 + 2
      if ext_type == 0x0000 then
        if buffer.length < o2 + 3 then none
        else
          let o3 := o2 + 2
          if buffer.getD o3 0 == 0x00 then
            let o4 := o3 + 1
            if buffer.length ≥ o4 + 2 then some (o4 + 2) else none
          else none
      else
        sniExtLoop buffer extensions_end (o2 + ext_len)
  else none
termination_by extensions_end - offset
decreasing_by omega

/-- `find_sni_offset` (packets.rs lines 61-142): walk the ClientHello
structure, bounds-checking each variable-length field, and locate the first
hostname byte of the SNI extension. -/
def find_sni_offset (buffer : List Nat) : Option Nat :=
  if is_tls_chello buffer = false ∨ buffer.length < 43 then none
  else
    -- Skip TLS record header (5 bytes)
    let offset := 5
    -- Skip Handshake header (4 bytes)
    if buffer.length < offset + 4 then none
    else
      -- Handshake header, ClientVersion, Random
      let offset := offset + 4 + 2 + 32
      if buffer.length < offset + 1 then none
      else
        let session_id_len := buffer.getD offset 0
        let offset := offset + 1 + session_id_len
        if buffer.length < offset + 2 then none
        else
          let cipher_suites_len :=
            be16 (buffer.getD offset 0) (buffer.getD (offset + 1) 0)
          let offset := offset + 2 + cipher_suites_len
          if buffer.length < offset + 1 then none
          else
            let compression_len := buffer.getD offset 0
            let offset := offset + 1 + compression_len
            if buffer.length < offset + 2 then none
            else
              let extensions_len :=
                be16 (buffer.getD offset 0) (buffer.getD (offset + 1) 0)
              let offset := offset + 2
              sniExtLoop buffer (offset + extensions_len) offset

/-- Continuation byte test, 0x80..0xBF. -/
def utf8Cont (b : Nat) : Bool := 0x80 ≤ b && b ≤ 0xBF

/-- Validity of a byte sequence as UTF-8, as checked by Rust's
`std::str::from_utf8` (RFC 3629: shortest forms only, no surrogates,
code points ≤ U+10FFFF). -/
def utf8Valid : List Nat → Bool
  | [] => true
  | b :: rest =>
    if b ≤ 0x7F then utf8Valid rest
    else if 0xC2 ≤ b && b ≤ 0xDF then
      match rest with
      | c1 :: rest2 => utf8Cont c1 && utf8Valid rest2
      | [] => false
    else if b == 0xE0 then
      match rest with
      | c1 :: c2 :: rest2 =>
        (0xA0 ≤ c1 && c1 ≤ 0xBF) && utf8Cont c2 && utf8Valid rest2
      | _ => false
    else if b == 0xED then
      match rest with
      | c1 :: c2 :: rest2 =>
        (0x80 ≤ c1 && c1 ≤ 0x9F) && utf8Cont c2 && utf8Valid rest2
      | _ => false
    else if (0xE1 ≤ b && b ≤ 0xEC) || b == 0xEE || b == 0xEF then
      match rest with
      | c1 :: c2 :: rest2 => utf8Cont c1 && utf8Cont c2 && utf8Valid rest2
      | _ => false
    else if b == 0xF0 then
      match rest with
      | c1 :: c2 :: c3 :: rest2 =>
        (0x90 ≤ c1 && c1 ≤ 0xBF) && utf8Cont c2 && utf8Cont c3 &&
          utf8Valid rest2
      | _ => false
    else if 0xF1 ≤ b && b ≤ 0xF3 then
      match rest with
      | c1 :: c2 :: c3 :: rest2 =>
        utf8Cont c1 && utf8Cont c2 && utf8Cont c3 && utf8Valid rest2
      | _ => false
    else if b == 0xF4 then
      match rest with
      | c1 :: c2 :: c3 :: rest2 =>
        (0x80 ≤ c1 && c1 ≤ 0x8F) && utf8Cont c2 && utf8Cont c3 &&
          utf8Valid rest2
      | _ => false
    else false

/-- `p` matches the front of the second list, byte for byte. -/
def leadsWith : List Nat → List Nat → Bool
  | [], _ => true
  | _ :: _, [] => false
  | p :: ps, x :: xs => p == x && leadsWith ps xs

/-- Index of the first occurrence of `pat` as a contiguous subsequence,
as computed by Rust's `str::find` on the underlying bytes. -/
def findSubIdx (pat : List Nat) : List Nat → Option Nat
  | [] => if leadsWith pat [] then some 0 else none
  | x :: xs =>
    if leadsWith pat (x :: xs) then some 0
    else (findSubIdx pat xs).map (· + 1)

/-- The bytes of the literal `"Host: "`. -/
def hostBytes : List Nat := [72, 111, 115, 116, 58, 32]

/-- `find_http_host_offset` (packets.rs lines 145-150).
`std::str::from_utf8(buffer).ok()?` yields `none` on non-UTF-8 input;
otherwise `s.find("Host: ")` is a byte-level first-occurrence search (the
pattern is ASCII, so every byte-level match lies on a char boundary), and
the pattern length 6 is added. -/
def find_http_host_offset (buffer : List Nat) : Option Nat :=
  if utf8Valid buffer then
    (findSubIdx hostBytes buffer).map (· + hostBytes.length)
  else none

/-- Result of `split_tls_record`: success with the new buffer contents, the
explicit `InvalidInput` error, or an arithmetic-overflow abort in a `usize`
subtraction (Rust panics there under overflow checks; with wrapping the
subtraction's intended numeric value still does not exist). -/
inductive TlsSplitResult where
  | ok (out : List Nat)
  | invalidInput
  | overflowAbort
deriving Repr, DecidableEq

/-- `split_tls_record` (packets.rs lines 153-184): checks
`buffer.len() < position + 5`, reads the 2-byte record length at bytes 3-4,
computes `first_part_len = position - 5` and
`second_part_len = original_len - first_part_len` (both `usize`
subtractions), rewrites bytes 3-4 and splices a synthesized 5-byte header in
at `position`. -/
def split_tls_record (buffer : List Nat) (position : Nat) : TlsSplitResult :=
  if buffer.length < position + 5 then TlsSplitResult.invalidInput
  else
    let original_len := be16 (buffer.getD 3 0) (buffer.getD 4 0)
    if position < 5 then TlsSplitResult.overflowAbort
    else
      let first_part_len := position - 5
      if original_len < first_part_len then TlsSplitResult.overflowAbort
      else
        let second_part_len := original_len - first_part_len
        let new_header : List Nat :=
          [buffer.getD 0 0, buffer.getD 1 0, buffer.getD 2 0,
           (second_part_len >>> 8) % 256, second_part_len % 256]
        let buffer := (buffer.set 3 ((first_part_len >>> 8) % 256)).set 4
          (first_part_len % 256)
        TlsSplitResult.ok
          (buffer.take position ++ new_header ++ buffer.drop position)

/-! ### Desync engine, from `src/desync.rs`

The engine's observable behaviour on a stream is the ordered sequence of
`write_all` chunks it issues (`flush` carries no bytes).  The functions below
compute that sequence; `runWrites` then replays it against a fallible
stream. -/

/-- The byte range `&buffer[a..b]` (in the code always taken with
`a ≤ b ≤ buffer.len()`). -/
def slice (buffer : List Nat) (a b : Nat) : List Nat :=
  (buffer.drop a).take (b - a)

/-- Two's-complement wrap of an unbounded integer into the `i64` range
`[-2^63, 2^63)`: Rust's release-mode overflow semantics.  Debug builds
panic on overflow instead, so an input where `wrap64 x ≠ x` is exactly an
input where the program either panics or computes with a wrapped value —
either way not the mathematical result. -/
def wrap64 (x : Int) : Int := (x + 2 ^ 63) % 2 ^ 64 - 2 ^ 63

/-- `calculate_offset` (desync.rs lines 145-181).  The Rust function returns
`io::Result<usize>` but never errs, so it is modelled as the plain `usize`
result.  All `i64` arithmetic wraps (`wrap64`).  The casts
`buffer.len() as i64`, `sni_offset as i64`, `host_offset as i64` are
value-preserving because a Rust slice length (and any index into it, plus
the 6-byte pattern length) is at most `isize::MAX < 2^63`.  `offset / 2` is
`i64` division, truncation toward zero (`Int.tdiv`); with divisor 2 it
cannot overflow (only `i64::MIN / -1` can), and its result's magnitude
never exceeds the operand's, so it needs no wrap.  `offset.max(0) as usize`
is `Int.toNat` of the max. -/
def calculate_offset (split_cfg : SplitConfig) (buffer : List Nat)
    (is_tls : Bool) : Nat :=
  let offset := split_cfg.offset
  -- Handle negative offsets (relative to end)
  let offset :=
    if offset < 0 then wrap64 ((buffer.length : Int) + offset) else offset
  -- Apply flags
  let offset :=
    if split_cfg.flags.sni && is_tls then
      match find_sni_offset buffer with
      | some sni_offset => wrap64 (offset + (sni_offset : Int))
      | none => offset
    else offset
  let offset :=
    if split_cfg.flags.host then
      match find_http_host_offset buffer with
      | some host_offset => wrap64 (offset + (host_offset : Int))
      | none => offset
    else offset
  let offset := if split_cfg.flags.middle then Int.tdiv offset 2 else offset
  let offset :=
    if split_cfg.flags.end_ then wrap64 ((buffer.length : Int) - offset)
    else offset
  min (max offset 0).toNat buffer.length

/-- The `for split_cfg in &self.config.split` loop of `apply_split`
(desync.rs lines 59-69), returning the chunks written and the final
`last_pos`. -/
def splitLoop (buffer : List Nat) (is_tls : Bool) :
    List SplitConfig → Nat → List (List Nat) × Nat
  | [], last_pos => ([], last_pos)
  | split_cfg :: rest, last_pos =>
    let pos := calculate_offset split_cfg buffer is_tls
    if last_pos < pos ∧ pos ≤ buffer.length then
      let r := splitLoop buffer is_tls rest pos
      (slice buffer last_pos pos :: r.1, r.2)
    else
      splitLoop buffer is_tls rest last_pos

/-- Chunks written by `apply_split` (desync.rs lines 50-79): the loop's
chunks, then the remainder `&buffer[last_pos..]` when `last_pos <
buffer.len()`. -/
def apply_split_writes (config : DesyncConfig) (buffer : List Nat)
    (is_tls : Bool) : List (List Nat) :=
  let r := splitLoop buffer is_tls config.split 0
  if r.2 < buffer.length then r.1 ++ [buffer.drop r.2] else r.1

/-- The cut-point vector of `apply_disorder` (desync.rs lines 90-100):
`vec![0]`, each resolved offset with `pos <= buffer.len()`, then
`buffer.len()`, sorted and deduplicated.  Rust's `Vec::sort` produces the
unique ≤-sorted permutation of the vector, which `List.insertionSort`
computes; `Vec::dedup` removes consecutive duplicates (`dedupConsec`). -/
def dedupConsec : List Nat → List Nat
  | [] => []
  | [a] => [a]
  | a :: b :: rest =>
    if a = b then dedupConsec (b :: rest) else a :: dedupConsec (b :: rest)

/-- See `dedupConsec`. -/
def disorder_positions (config : DesyncConfig) (buffer : List Nat)
    (is_tls : Bool) : List Nat :=
  let positions : List Nat :=
    0 :: (config.disorder.filterMap fun disorder_cfg =>
      let pos := calculate_offset disorder_cfg buffer is_tls
      if pos ≤ buffer.length then some pos else none) ++ [buffer.length]
  dedupConsec (List.insertionSort (· ≤ ·) positions)

/-- The reversed emission loop `for i in (1..positions.len()).rev()` of
`apply_disorder` (desync.rs lines 103-109): argument `n` plays the role of
the remaining index range `1..=n`, the chunk `&buffer[positions[i-1]..
positions[i]]` being emitted for `i = n` first. -/
def emitRev (buffer : List Nat) (positions : List Nat) : Nat → List (List Nat)
  | 0 => []
  | i + 1 =>
    slice buffer (positions.getD i 0) (positions.getD (i + 1) 0) ::
      emitRev buffer positions i

/-- Chunks written by `apply_disorder` (desync.rs lines 81-112). -/
def apply_disorder_writes (config : DesyncConfig) (buffer : List Nat)
    (is_tls : Bool) : List (List Nat) :=
  let positions := disorder_positions config buffer is_tls
  emitRev buffer positions (positions.length - 1)

/-- Chunks written by `apply_fake` (desync.rs lines 114-143).  The `for`
loop returns at the end of its first iteration, so only the head of
`config.fake` is consulted; the guarded decoy write
`&fake_data[..fake_data.len().min(pos)]` is kept verbatim. -/
def apply_fake_writes (config : DesyncConfig) (buffer : List Nat)
    (is_tls : Bool) : List (List Nat) :=
  match config.fake with
  | fake_cfg :: _ =>
    let pos := calculate_offset fake_cfg.split buffer is_tls
    let decoy : List (List Nat) :=
      match fake_cfg.data with
      | some fake_data =>
        if fake_data.length ≤ pos then
          [fake_data.take (min fake_data.length pos)]
        else []
      | none => []
    decoy ++ [buffer]
  | [] => [buffer]

/-- Chunks written by one call to `apply_desync` (desync.rs lines 17-48):
empty buffers return without writing; otherwise the first non-empty
technique list wins (split, then disorder, then fake), and with no
technique the buffer is written once. -/
def apply_desync_writes (config : DesyncConfig) (buffer : List Nat) :
    List (List Nat) :=
  if buffer.isEmpty then []
  else
    let is_tls := is_tls_chello buffer
    if ¬ config.split.isEmpty then apply_split_writes config buffer is_tls
    else if ¬ config.disorder.isEmpty then
      apply_disorder_writes config buffer is_tls
    else if ¬ config.fake.isEmpty then apply_fake_writes config buffer is_tls
    else [buffer]

/-- Delivery class of an emitted instruction.  The spec's instruction model
distinguishes `normal` from `short-lived` (low-TTL decoy) delivery;
`desync.rs` has exactly one emission primitive, a plain `write_all` with no
TTL manipulation (`FakeConfig.ttl` and `DesyncConfig.ttl` are never read by
the engine), so every instruction the code produces is `normal`. -/
inductive Delivery where
  | normal
  | shortLived
deriving Repr, DecidableEq

/-- `apply_fake` (desync.rs lines 114-143) at the instruction level: the
same chunks as `apply_fake_writes`, each tagged with its delivery class.
Both the decoy write (line 128) and the real-data write (line 134) are
plain `write_all`s — the low-TTL fake-packet delivery is explicitly left
unimplemented ("Real implementation would send fake packet with low TTL
first") — so both carry `Delivery.normal`. -/
def apply_fake_instrs (config : DesyncConfig) (buffer : List Nat)
    (is_tls : Bool) : List (List Nat × Delivery) :=
  match config.fake with
  | fake_cfg :: _ =>
    let pos := calculate_offset fake_cfg.split buffer is_tls
    let decoy : List (List Nat × Delivery) :=
      match fake_cfg.data with
      | some fake_data =>
        if fake_data.length ≤ pos then
          [(fake_data.take (min fake_data.length pos), Delivery.normal)]
        else []
      | none => []
    decoy ++ [(buffer, Delivery.normal)]
  | [] => [(buffer, Delivery.normal)]

/-- One call of `apply_desync` (desync.rs lines 17-48) at the instruction
level: the chunks of `apply_desync_writes` with their delivery classes.
Every write in `desync.rs` is the same plain `write_all`, hence
`Delivery.normal` throughout. -/
def apply_desync_instrs (config : DesyncConfig) (buffer : List Nat) :
    List (List Nat × Delivery) :=
  if buffer.isEmpty then []
  else
    let is_tls := is_tls_chello buffer
    if ¬ config.split.isEmpty then
      (apply_split_writes config buffer is_tls).map (·, Delivery.normal)
    else if ¬ config.disorder.isEmpty then
      (apply_disorder_writes config buffer is_tls).map (·, Delivery.normal)
    else if ¬ config.fake.isEmpty then apply_fake_instrs config buffer is_tls
    else [(buffer, Delivery.normal)]

/-- Replay a chunk sequence against a fallible stream: `ok n` tells whether
the `n`-th `write_all` call of this `apply_desync` call succeeds.  On the
first failing write the call returns the `io` error; `log` accumulates the
chunks actually written. -/
def runWrites (ok : Nat → Bool) (log : List (List Nat)) :
    List (List Nat) → Except (List (List Nat)) (List (List Nat))
  | [] => Except.ok log
  | w :: ws =>
    if ok log.length then runWrites ok (log ++ [w]) ws
    else Except.error log

/-! ### SOCKS5 method negotiation, from `src/proxy.rs` -/

/-- Outcome of the method-list check in `handle_client`
(proxy.rs lines 89-99): either the connection is torn down with no reply
(`anyhow::bail!`), or the 2-byte auth reply is sent and the handshake
proceeds. -/
inductive AuthOutcome where
  | proceed (reply : List Nat)
  | fatal
deriving Repr, DecidableEq

/-- `SOCKS5_VERSION` (proxy.rs line 8). -/
def SOCKS5_VERSION : Nat := 0x05

/-- `SOCKS5_AUTH_NONE` (proxy.rs line 9). -/
def SOCKS5_AUTH_NONE : Nat := 0x00

/-- The method-list step of the SOCKS5 handshake (proxy.rs lines 89-99):
bail out if `methods` does not contain `SOCKS5_AUTH_NONE`, else send the
auth response `[SOCKS5_VERSION, SOCKS5_AUTH_NONE]`. -/
def socks5_method_step (methods : List Nat) : AuthOutcome :=
  if ¬ methods.contains SOCKS5_AUTH_NONE then AuthOutcome.fatal
  else AuthOutcome.proceed [SOCKS5_VERSION, SOCKS5_AUTH_NONE]

/-! ### Spec-side definitions

These definitions transcribe the specification's words (not the code) and are
compared with the code-derived definitions above in the refinement
theorems. -/

/-- Spec §4.2 "Offset resolution (`calculate_offset`), applied per rule, in
this fixed order": (1) negative rebase, (2) SNI addition, (3) Host addition,
(4) halving, (5) end reinterpretation, (6) clamp to `[0, buffer.length]`.
Transcribed from the spec's numbered steps. -/
def calculate_offset_spec (rule : SplitConfig) (buffer : List Nat)
    (is_tls : Bool) : Nat :=
  -- 1. If `offset < 0`, rebase: `offset = buffer.length + offset`.
  let o1 : Int :=
    if rule.offset < 0 then (buffer.length : Int) + rule.offset
    else rule.offset
  -- 2. If `flags.sni` and the buffer is a TLS ClientHello, add the SNI
  --    hostname offset (if found).
  let o2 : Int :=
    if rule.flags.sni = true ∧ is_tls = true then
      match find_sni_offset buffer with
      | some sni => o1 + (sni : Int)
      | none => o1
    else o1
  -- 3. If `flags.host`, add the HTTP Host-header offset (if found).
  let o3 : Int :=
    if rule.flags.host = true then
      match find_http_host_offset buffer with
      | some host => o2 + (host : Int)
      | none => o2
    else o2
  -- 4. If `flags.middle`, halve (integer division).
  let o4 : Int := if rule.flags.middle = true then Int.tdiv o3 2 else o3
  -- 5. If `flags.end`, replace with `buffer.length − offset`.
  let o5 : Int :=
    if rule.flags.end_ = true then (buffer.length : Int) - o4 else o4
  -- 6. Clamp to `[0, buffer.length]`.
  (min (max o5 0) (buffer.length : Int)).toNat

/-- Spec §4.2 disorder: "partition the buffer into contiguous segments
between consecutive cut points", in forward-sequential order. -/
def segsOf (buffer : List Nat) (positions : List Nat) : List (List Nat) :=
  (List.range (positions.length - 1)).map fun i =>
    slice buffer (positions.getD i 0) (positions.getD (i + 1) 0)

/-- `pat` occurs in `l` as a contiguous byte subsequence starting at index
`i`. -/
def occursAt (pat l : List Nat) (i : Nat) : Prop :=
  leadsWith pat (l.drop i) = true

instance (pat l : List Nat) (i : Nat) : Decidable (occursAt pat l i) :=
  inferInstanceAs (Decidable (leadsWith pat (l.drop i) = true))

/-- Erase the fields the spec declares "not consumed by the transformation"
from one rule: `repeats` and `skip`. -/
def stripRule (r : SplitConfig) : SplitConfig :=
  { r with repeats := none, skip := none }

/-- `stripRule` applied to the placement rule of a fake rule. -/
def stripFake (f : FakeConfig) : FakeConfig :=
  { f with split := stripRule f.split }

/-- Quotient of a policy by everything the spec declares the transformation
never consumes: `repeats`/`skip` of every rule and the whole `tls_rec`
list. Two policies with the same `stripConfig` differ only in those
fields. -/
def stripConfig (c : DesyncConfig) : DesyncConfig :=
  { c with
    split := c.split.map stripRule
    disorder := c.disorder.map stripRule
    fake := c.fake.map stripFake
    tls_rec := [] }

/-! ### Concrete values used in counterexamples and witnesses -/

/-- All-false flags. -/
def flags0 : SplitFlags := ⟨false, false, false, false⟩

/-- A rule with a plain positive offset and no flags. -/
def plainRule (o : Int) : SplitConfig := ⟨o, flags0, none, none⟩

/-- The empty policy. -/
def cfg0 : DesyncConfig := ⟨[], [], [], [], none, none⟩

/-- Policy with a single split at offset 1. -/
def cfgSplit1 : DesyncConfig := { cfg0 with split := [plainRule 1] }

/-- Policy with one fake rule carrying no decoy payload. -/
def cfgFakeNoData : DesyncConfig :=
  { cfg0 with fake := [⟨plainRule 1, none, none⟩] }

/-- Policy with one fake rule carrying a one-byte decoy at offset 2. -/
def cfgFakeDecoy : DesyncConfig :=
  { cfg0 with fake := [⟨plainRule 2, none, some [7]⟩] }

/-- Policy with two disorder rules. -/
def cfgDis : DesyncConfig := { cfg0 with disorder := [plainRule 3, plainRule 1] }

/-- Policy whose reserved fields are populated. -/
def cfgReservedP : DesyncConfig :=
  { cfg0 with split := [⟨2, flags0, some 3, none⟩], tls_rec := [plainRule 7] }

/-- Same policy as `cfgReservedP` up to the reserved fields. -/
def cfgReservedQ : DesyncConfig :=
  { cfg0 with split := [⟨2, flags0, none, some 1⟩], tls_rec := [] }

/-! ### Theorems -/

/-- Truncating `i64` division by 2 in terms of Euclidean division (the form
`omega` can reason about). -/
theorem tdiv_two_eq (x : Int) : Int.tdiv x 2 = if 0 ≤ x then x / 2 else -(-x / 2) := by
  cases x with
  | ofNat m =>
    show Int.ofNat (m / 2) = _
    simp only [Int.ofNat_eq_natCast]
    rw [if_pos (by omega)]
    omega
  | negSucc m =>
    show -Int.ofNat ((m + 1) / 2) = _
    rw [if_neg (Int.not_le.mpr (Int.negSucc_lt_zero m))]
    simp only [Int.ofNat_eq_natCast, Int.negSucc_eq]
    omega

/-- Gluing a slice back onto the rest of the buffer. -/
theorem slice_append_drop (buffer : List Nat) {a b : Nat} (h : a ≤ b) :
    slice buffer a b ++ buffer.drop b = buffer.drop a := by
  have hd : buffer.drop b = (buffer.drop a).drop (b - a) := by
    rw [List.drop_drop]
    congr 1
    omega
  rw [slice, hd, List.take_append_drop]

/-- Invariant of the `apply_split` loop: starting from any in-range
`last_pos`, the emitted chunks followed by the unseen tail reassemble the
tail from `last_pos`, and the final position only moves forward and stays in
range. -/
theorem splitLoop_inv (cfgs : List SplitConfig) (buffer : List Nat)
    (is_tls : Bool) (last_pos : Nat) (h : last_pos ≤ buffer.length) :
    (splitLoop buffer is_tls cfgs last_pos).1.flatten ++
        buffer.drop (splitLoop buffer is_tls cfgs last_pos).2 =
      buffer.drop last_pos ∧
    last_pos ≤ (splitLoop buffer is_tls cfgs last_pos).2 ∧
    (splitLoop buffer is_tls cfgs last_pos).2 ≤ buffer.length := by
  induction cfgs generalizing last_pos with
  | nil => simpa [splitLoop] using h
  | cons c rest ih =>
    simp only [splitLoop]
    by_cases hc : last_pos < calculate_offset c buffer is_tls ∧
        calculate_offset c buffer is_tls ≤ buffer.length
    · rw [if_pos hc]
      obtain ⟨h1, h2, h3⟩ := ih (calculate_offset c buffer is_tls) hc.2
      refine ⟨?_, by omega, h3⟩
      rw [List.flatten_cons, List.append_assoc, h1,
        slice_append_drop buffer (le_of_lt hc.1)]
    · rw [if_neg hc]
      exact ih last_pos h

/-- C1: concatenating the chunks emitted by the split technique reproduces
the input buffer byte for byte, for every buffer and every list of split
rules. -/
theorem apply_split_concat_c1 (config : DesyncConfig) (buffer : List Nat)
    (is_tls : Bool) :
    (apply_split_writes config buffer is_tls).flatten = buffer := by
  obtain ⟨h1, _h2, h3⟩ :=
    splitLoop_inv config.split buffer is_tls 0 (Nat.zero_le _)
  rw [List.drop_zero] at h1
  unfold apply_split_writes
  by_cases hc : (splitLoop buffer is_tls config.split 0).2 < buffer.length
  · rw [if_pos hc, List.flatten_append, List.flatten_cons, List.flatten_nil,
      List.append_nil]
    exact h1
  · rw [if_neg hc]
    have he : (splitLoop buffer is_tls config.split 0).2 = buffer.length := by
      omega
    rw [he, List.drop_length, List.append_nil] at h1
    exact h1

/-- Any offset produced by the extension-scanning loop was bounds-checked
against the buffer length right before being returned. -/
theorem sniExtLoop_le (buffer : List Nat) (extensions_end : Nat) :
    ∀ (n offset o : Nat), extensions_end - offset ≤ n →
      sniExtLoop buffer extensions_end offset = some o →
      o ≤ buffer.length := by
  intro n
  induction n with
  | zero =>
    intro offset o hn h
    rw [sniExtLoop] at h
    rw [dif_neg (by omega)] at h
    exact absurd h (by simp)
  | succ n ih =>
    intro offset o hn h
    rw [sniExtLoop] at h
    dsimp only at h
    split at h
    · split at h
      · exact absurd h (by simp)
      · split at h
        · split at h
          · exact absurd h (by simp)
          · split at h
            · split at h
              · injection h with h'
                omega
              · exact absurd h (by simp)
            · exact absurd h (by simp)
        · exact ih _ o (by omega) h
    · exact absurd h (by simp)

/-- Any offset returned by `find_sni_offset` is at most the buffer
length. -/
theorem find_sni_offset_le (buffer : List Nat) :
    ∀ o, find_sni_offset buffer = some o → o ≤ buffer.length := by
  intro o h
  unfold find_sni_offset at h
  dsimp only at h
  split at h
  · exact absurd h (by simp)
  · split at h
    · exact absurd h (by simp)
    · split at h
      · exact absurd h (by simp)
      · split at h
        · exact absurd h (by simp)
        · split at h
          · exact absurd h (by simp)
          · split at h
            · exact absurd h (by simp)
            · exact sniExtLoop_le buffer _ _ _ _ le_rfl h

/-- C5: `find_sni_offset` is total on arbitrary bytes (it is a Lean
function whose every buffer access sits behind the same bounds check the
code makes, so it never reads past the end), returns `none` on
non-ClientHello input, and any returned offset is at most the buffer
length. -/
theorem find_sni_offset_c5 (buffer : List Nat) :
    (is_tls_chello buffer = false → find_sni_offset buffer = none) ∧
    (∀ o, find_sni_offset buffer = some o → o ≤ buffer.length) := by
  constructor
  · intro h
    unfold find_sni_offset
    rw [if_pos (Or.inl h)]
  · exact find_sni_offset_le buffer

/-- Witness for C5 at the concrete buffer `[]`. -/
theorem find_sni_offset_c5_witness : find_sni_offset [] = none :=
  (find_sni_offset_c5 []).1 (by decide)

/-- A successful `findSubIdx` index is at most the list length. -/
theorem findSubIdx_le (pat : List Nat) :
    ∀ l j, findSubIdx pat l = some j → j ≤ l.length := by
  intro l
  induction l with
  | nil =>
    intro j h
    rw [findSubIdx] at h
    split at h
    · injection h with h'
      omega
    · exact absurd h (by simp)
  | cons x xs ih =>
    intro j h
    rw [findSubIdx] at h
    split at h
    · injection h with h'
      simp only [List.length_cons]
      omega
    · rw [Option.map_eq_some'] at h
      obtain ⟨j', hj', rfl⟩ := h
      have := ih j' hj'
      simp only [List.length_cons]
      omega

/-- Any offset returned by `find_http_host_offset` is at most the buffer
length plus the 6-byte pattern length. -/
theorem find_http_host_offset_le (buffer : List Nat) :
    ∀ o, find_http_host_offset buffer = some o → o ≤ buffer.length + 6 := by
  intro o h
  unfold find_http_host_offset at h
  split at h
  · rw [Option.map_eq_some'] at h
    obtain ⟨j, hj, rfl⟩ := h
    have hle := findSubIdx_le hostBytes buffer j hj
    have hhl : hostBytes.length = 6 := rfl
    omega
  · exact absurd h (by simp)

/-- On arguments inside `i64` range, the two's-complement wrap is the
identity: exactly the inputs on which release and debug builds agree with
the mathematical value. -/
theorem wrap64_eq (x : Int) (h1 : -(2 ^ 63) ≤ x) (h2 : x < 2 ^ 63) :
    wrap64 x = x := by
  unfold wrap64
  omega

/-- C2 (amended): restricted to configurations where no intermediate step
leaves `i64` range — `buffer.length ≤ 2^60` and `|offset| ≤ 2^60` suffice,
and real buffers are at most 8192 bytes — `calculate_offset` applies
exactly the spec's six transformations in the spec's fixed order (it
coincides with the step-by-step transcription `calculate_offset_spec`);
moreover for ALL inputs, bounded or not, the clamped `Nat` result never
exceeds the buffer length.  Without such bounds an intermediate `i64`
overflow is reachable and the code wraps (or panics under overflow checks)
instead of computing the mathematical composition: see
`calculate_offset_c2_counterexample`. -/
theorem calculate_offset_c2 (rule : SplitConfig) (buffer : List Nat)
    (is_tls : Bool) (hL : buffer.length ≤ 2 ^ 60)
    (hoff : rule.offset.natAbs ≤ 2 ^ 60) :
    calculate_offset rule buffer is_tls =
      calculate_offset_spec rule buffer is_tls ∧
    calculate_offset rule buffer is_tls ≤ buffer.length := by
  constructor
  · unfold calculate_offset calculate_offset_spec
    rcases hfs : find_sni_offset buffer with _ | s
    · rcases hfh : find_http_host_offset buffer with _ | ho
      · simp only [hfs, hfh, Bool.and_eq_true, ite_self]
        rw [wrap64_eq ((buffer.length : Int) + rule.offset) (by omega)
          (by omega)]
        have hb1 : (if rule.offset < 0 then
            (buffer.length : Int) + rule.offset else rule.offset).natAbs ≤
            2 ^ 60 := by
          split_ifs <;> omega
        generalize hg1 : (if rule.offset < 0 then
          (buffer.length : Int) + rule.offset else rule.offset) = a1
        rw [hg1] at hb1
        have hb4 : (if rule.flags.middle = true then Int.tdiv a1 2
            else a1).natAbs ≤ 2 ^ 60 := by
          have hdiv : (Int.tdiv a1 2).natAbs = a1.natAbs / 2 :=
            Int.natAbs_tdiv a1 2
          split_ifs <;> omega
        generalize hg4 : (if rule.flags.middle = true then Int.tdiv a1 2
          else a1) = a4
        rw [hg4] at hb4
        rw [wrap64_eq ((buffer.length : Int) - a4) (by omega) (by omega)]
        generalize (if rule.flags.end_ = true then
          (buffer.length : Int) - a4 else a4) = a5
        omega
      · have hhb := find_http_host_offset_le buffer ho hfh
        simp only [hfs, hfh, Bool.and_eq_true, ite_self]
        rw [wrap64_eq ((buffer.length : Int) + rule.offset) (by omega)
          (by omega)]
        have hb1 : (if rule.offset < 0 then
            (buffer.length : Int) + rule.offset else rule.offset).natAbs ≤
            2 ^ 60 := by
          split_ifs <;> omega
        generalize hg1 : (if rule.offset < 0 then
          (buffer.length : Int) + rule.offset else rule.offset) = a1
        rw [hg1] at hb1
        rw [wrap64_eq (a1 + (ho : Int)) (by omega) (by omega)]
        have hb3 : (if rule.flags.host = true then a1 + (ho : Int)
            else a1).natAbs ≤ 2 ^ 62 := by
          split_ifs <;> omega
        generalize hg3 : (if rule.flags.host = true then a1 + (ho : Int)
          else a1) = a3
        rw [hg3] at hb3
        have hb4 : (if rule.flags.middle = true then Int.tdiv a3 2
            else a3).natAbs ≤ 2 ^ 62 := by
          have hdiv : (Int.tdiv a3 2).natAbs = a3.natAbs / 2 :=
            Int.natAbs_tdiv a3 2
          split_ifs <;> omega
        generalize hg4 : (if rule.flags.middle = true then Int.tdiv a3 2
          else a3) = a4
        rw [hg4] at hb4
        rw [wrap64_eq ((buffer.length : Int) - a4) (by omega) (by omega)]
        generalize (if rule.flags.end_ = true then
          (buffer.length : Int) - a4 else a4) = a5
        omega
    · have hsb := find_sni_offset_le buffer s hfs
      rcases hfh : find_http_host_offset buffer with _ | ho
      · simp only [hfs, hfh, Bool.and_eq_true, ite_self]
        rw [wrap64_eq ((buffer.length : Int) + rule.offset) (by omega)
          (by omega)]
        have hb1 : (if rule.offset < 0 then
            (buffer.length : Int) + rule.offset else rule.offset).natAbs ≤
            2 ^ 60 := by
          split_ifs <;> omega
        generalize hg1 : (if rule.offset < 0 then
          (buffer.length : Int) + rule.offset else rule.offset) = a1
        rw [hg1] at hb1
        rw [wrap64_eq (a1 + (s : Int)) (by omega) (by omega)]
        have hb2 : (if rule.flags.sni = true ∧ is_tls = true then
            a1 + (s : Int) else a1).natAbs ≤ 2 ^ 61 := by
          split_ifs <;> omega
        generalize hg2 : (if rule.flags.sni = true ∧ is_tls = true then
          a1 + (s : Int) else a1) = a2
        rw [hg2] at hb2
        have hb4 : (if rule.flags.middle = true then Int.tdiv a2 2
            else a2).natAbs ≤ 2 ^ 61 := by
          have hdiv : (Int.tdiv a2 2).natAbs = a2.natAbs / 2 :=
            Int.natAbs_tdiv a2 2
          split_ifs <;> omega
        generalize hg4 : (if rule.flags.middle = true then Int.tdiv a2 2
          else a2) = a4
        rw [hg4] at hb4
        rw [wrap64_eq ((buffer.length : Int) - a4) (by omega) (by omega)]
        generalize (if rule.flags.end_ = true then
          (buffer.length : Int) - a4 else a4) = a5
        omega
      · have hhb := find_http_host_offset_le buffer ho hfh
        simp only [hfs, hfh, Bool.and_eq_true, ite_self]
        rw [wrap64_eq ((buffer.length : Int) + rule.offset) (by omega)
          (by omega)]
        have hb1 : (if rule.offset < 0 then
            (buffer.length : Int) + rule.offset else rule.offset).natAbs ≤
            2 ^ 60 := by
          split_ifs <;> omega
        generalize hg1 : (if rule.offset < 0 then
          (buffer.length : Int) + rule.offset else rule.offset) = a1
        rw [hg1] at hb1
        rw [wrap64_eq (a1 + (s : Int)) (by omega) (by omega)]
        have hb2 : (if rule.flags.sni = true ∧ is_tls = true then
            a1 + (s : Int) else a1).natAbs ≤ 2 ^ 61 := by
          split_ifs <;> omega
        generalize hg2 : (if rule.flags.sni = true ∧ is_tls = true then
          a1 + (s : Int) else a1) = a2
        rw [hg2] at hb2
        rw [wrap64_eq (a2 + (ho : Int)) (by omega) (by omega)]
        have hb3 : (if rule.flags.host = true then a2 + (ho : Int)
            else a2).natAbs ≤ 2 ^ 62 := by
          split_ifs <;> omega
        generalize hg3 : (if rule.flags.host = true then a2 + (ho : Int)
          else a2) = a3
        rw [hg3] at hb3
        have hb4 : (if rule.flags.middle = true then Int.tdiv a3 2
            else a3).natAbs ≤ 2 ^ 62 := by
          have hdiv : (Int.tdiv a3 2).natAbs = a3.natAbs / 2 :=
            Int.natAbs_tdiv a3 2
          split_ifs <;> omega
        generalize hg4 : (if rule.flags.middle = true then Int.tdiv a3 2
          else a3) = a4
        rw [hg4] at hb4
        rw [wrap64_eq ((buffer.length : Int) - a4) (by omega) (by omega)]
        generalize (if rule.flags.end_ = true then
          (buffer.length : Int) - a4 else a4) = a5
        omega
  · unfold calculate_offset
    exact Nat.min_le_right _ _

/-- Witness for C2 at a concrete in-range rule and buffer. -/
theorem calculate_offset_c2_witness :
    calculate_offset (plainRule 2) [1, 2, 3] false =
      calculate_offset_spec (plainRule 2) [1, 2, 3] false ∧
    calculate_offset (plainRule 2) [1, 2, 3] false ≤ [1, 2, 3].length :=
  calculate_offset_c2 (plainRule 2) [1, 2, 3] false (by decide) (by decide)

/-- C2 counterexample to the universal claim: at the representable rule
`offset = i64::MIN` with the `end` flag, on the 1-byte buffer `[0]`, the
rebase gives `1 - 2^63` and step (5) computes `buffer.length - offset =
2^63`, which overflows `i64`: the code wraps to `-2^63` (release semantics;
debug builds panic at this subtraction) and the clamp returns position 0,
while the spec's mathematical composition clamps `2^63` to the buffer
length 1 — so `calculate_offset` does not apply exactly the spec's
transformations for every rule. -/
theorem calculate_offset_c2_counterexample :
    calculate_offset ⟨-(2 ^ 63), ⟨false, false, true, false⟩, none, none⟩
        [0] false = 0 ∧
    calculate_offset_spec ⟨-(2 ^ 63), ⟨false, false, true, false⟩, none,
        none⟩ [0] false = 1 := by
  exact ⟨by decide, by decide⟩

/-- Replaying a chunk sequence against a fallible stream either writes the
whole sequence (success) or exactly the chunks before the first failing
write (error): the log is always `log₀` plus a prefix of the sequence. -/
theorem runWrites_spec (ok : Nat → Bool) (ws : List (List Nat)) :
    ∀ log,
      (∀ out, runWrites ok log ws = Except.ok out → out = log ++ ws) ∧
      (∀ out, runWrites ok log ws = Except.error out →
        ∃ k, k < ws.length ∧ out = log ++ ws.take k) := by
  induction ws with
  | nil =>
    intro log
    constructor
    · intro out h
      rw [runWrites] at h
      injection h with h'
      simp [h'.symm]
    · intro out h
      rw [runWrites] at h
      exact absurd h (by simp)
  | cons w ws ih =>
    intro log
    constructor
    · intro out h
      rw [runWrites] at h
      by_cases hc : ok log.length
      · rw [if_pos hc] at h
        have := (ih (log ++ [w])).1 out h
        simpa [List.append_assoc] using this
      · rw [if_neg hc] at h
        exact absurd h (by simp)
    · intro out h
      rw [runWrites] at h
      by_cases hc : ok log.length
      · rw [if_pos hc] at h
        obtain ⟨k, hk, he⟩ := (ih (log ++ [w])).2 out h
        refine ⟨k + 1, by simpa using Nat.succ_lt_succ hk, ?_⟩
        simpa [List.append_assoc] using he
      · rw [if_neg hc] at h
        injection h with h'
        exact ⟨0, by simp, by simp [h'.symm]⟩

/-- C6 (amended): the engine's own computation of the instruction sequence
never fails; a call that returns an error failed inside a stream write, and
the bytes written by that call are then exactly the instructions before the
failing one — a proper prefix of the computed sequence (the full sequence
when every write succeeds). The original claim that an erroring call wrote
nothing is refuted by `apply_atomicity_c6_counterexample`. -/
theorem apply_atomicity_c6 (ok : Nat → Bool) (config : DesyncConfig)
    (buffer : List Nat) :
    (∀ log, runWrites ok [] (apply_desync_writes config buffer) =
        Except.ok log → log = apply_desync_writes config buffer) ∧
    (∀ log, runWrites ok [] (apply_desync_writes config buffer) =
        Except.error log →
      ∃ k, k < (apply_desync_writes config buffer).length ∧
        log = (apply_desync_writes config buffer).take k) := by
  have h := runWrites_spec ok (apply_desync_writes config buffer) []
  constructor
  · intro log hl
    simpa using h.1 log hl
  · intro log hl
    obtain ⟨k, hk, he⟩ := h.2 log hl
    exact ⟨k, hk, by simpa using he⟩

/-- Witness for C6 at a concrete policy, buffer and all-succeeding
stream. -/
theorem apply_atomicity_c6_witness :
    ([[10, 20]] : List (List Nat)) = apply_desync_writes cfg0 [10, 20] :=
  (apply_atomicity_c6 (fun _ => true) cfg0 [10, 20]).1 [[10, 20]] (by rfl)

/-- C6 counterexample: a split policy on the two-byte buffer `[10, 20]`
against a stream whose second write fails returns an error, yet the first
chunk `[10]` was already written — the call is not atomic as the claim
states. -/
theorem apply_atomicity_c6_counterexample :
    runWrites (fun n => n == 0) []
        (apply_desync_writes cfgSplit1 [10, 20]) =
      Except.error [[10]] ∧
    ([[10]] : List (List Nat)) ≠ [] := by
  constructor
  · rfl
  · simp

/-- C7 (amended in two places the counterexample exhibits: the buffer must
be non-empty, since `apply_desync` returns before any write on an empty
buffer; and both emitted instructions carry NORMAL delivery — the
short-lived low-TTL delivery of the decoy that the original claim ascribes
is not implemented, the code sends the decoy through the same plain
`write_all` as the real data and never reads `FakeConfig.ttl`): with a
non-empty fake list and empty split/disorder lists, only the first fake
rule matters; configured decoy bytes no longer than the resolved offset are
emitted first and then the whole original buffer exactly once, both as
normal-delivery instructions; with no usable decoy the output is exactly
the unmodified buffer, once, as a normal-delivery instruction. -/
theorem apply_fake_c7 (config : DesyncConfig) (buffer : List Nat)
    (fake_cfg : FakeConfig) (rest : List FakeConfig)
    (hb : buffer ≠ []) (hs : config.split = []) (hd : config.disorder = [])
    (hf : config.fake = fake_cfg :: rest) :
    (apply_desync_instrs config buffer =
      apply_desync_instrs { config with fake := [fake_cfg] } buffer) ∧
    (∀ d, fake_cfg.data = some d →
      d.length ≤
          calculate_offset fake_cfg.split buffer (is_tls_chello buffer) →
      apply_desync_instrs config buffer =
        [(d, Delivery.normal), (buffer, Delivery.normal)]) ∧
    (fake_cfg.data = none →
      apply_desync_instrs config buffer = [(buffer, Delivery.normal)]) ∧
    (∀ d, fake_cfg.data = some d →
      calculate_offset fake_cfg.split buffer (is_tls_chello buffer) <
          d.length →
      apply_desync_instrs config buffer = [(buffer, Delivery.normal)]) := by
  have hbe : buffer.isEmpty = false := by
    cases buffer
    · exact absurd rfl hb
    · rfl
  refine ⟨?_, ?_, ?_, ?_⟩
  · unfold apply_desync_instrs
    simp [hbe, hs, hd, hf, apply_fake_instrs]
  · intro d hdata hle
    unfold apply_desync_instrs
    simp [hbe, hs, hd, hf, apply_fake_instrs, hdata, hle,
      Nat.min_eq_left hle, List.take_length]
  · intro hdata
    unfold apply_desync_instrs
    simp [hbe, hs, hd, hf, apply_fake_instrs, hdata]
  · intro d hdata hlt
    have hnle : ¬ d.length ≤
        calculate_offset fake_cfg.split buffer (is_tls_chello buffer) := by
      omega
    unfold apply_desync_instrs
    simp [hbe, hs, hd, hf, apply_fake_instrs, hdata, hnle]

/-- Witness for C7 at a concrete policy and buffer `[9]`. -/
theorem apply_fake_c7_witness :
    apply_desync_instrs cfgFakeNoData [9] = [([9], Delivery.normal)] :=
  (apply_fake_c7 cfgFakeNoData [9] ⟨plainRule 1, none, none⟩ []
    (by simp) rfl rfl rfl).2.2.1 rfl

/-- C7 counterexample, refuting the claim at two concrete inputs.  First,
"for every buffer": on the empty buffer with the fake technique configured
and no decoy usable, `apply_desync` emits nothing at all, not the
unmodified (empty) buffer exactly once.  Second, the delivery attribution:
with a usable one-byte decoy `[7]` (resolved offset 2) on `[1, 2, 3]`, the
decoy is emitted as a NORMAL-delivery instruction, not the short-lived
delivery the claim states — no code path produces a short-lived
instruction. -/
theorem apply_fake_c7_counterexample :
    (apply_desync_instrs cfgFakeNoData [] = [] ∧
      ([] : List (List Nat × Delivery)) ≠
        [(([] : List Nat), Delivery.normal)]) ∧
    (apply_desync_instrs cfgFakeDecoy [1, 2, 3] =
        [([7], Delivery.normal), ([1, 2, 3], Delivery.normal)] ∧
      Delivery.normal ≠ Delivery.shortLived) := by
  exact ⟨⟨rfl, by simp⟩, ⟨rfl, by simp⟩⟩

/-- A successful `findSubIdx` result is an occurrence and is the first
one. -/
theorem findSubIdx_some (pat : List Nat) :
    ∀ l j, findSubIdx pat l = some j →
      occursAt pat l j ∧ ∀ k, k < j → ¬ occursAt pat l k := by
  intro l
  induction l with
  | nil =>
    intro j h
    rw [findSubIdx] at h
    split at h
    next hc =>
      injection h with h'
      subst h'
      exact ⟨by simpa [occursAt] using hc,
        fun k hk => absurd hk (Nat.not_lt_zero k)⟩
    next hc => exact absurd h (by simp)
  | cons x xs ih =>
    intro j h
    rw [findSubIdx] at h
    split at h
    next hc =>
      injection h with h'
      subst h'
      exact ⟨by simpa [occursAt] using hc,
        fun k hk => absurd hk (Nat.not_lt_zero k)⟩
    next hc =>
      rw [Option.map_eq_some'] at h
      obtain ⟨j', hj', rfl⟩ := h
      obtain ⟨hocc, hmin⟩ := ih j' hj'
      constructor
      · simpa [occursAt] using hocc
      · intro k hk
        cases k with
        | zero => simpa [occursAt] using hc
        | succ k' =>
          have := hmin k' (by omega)
          simpa [occursAt] using this

/-- A `none` from `findSubIdx` means no occurrence anywhere. -/
theorem findSubIdx_none (pat : List Nat) :
    ∀ l, findSubIdx pat l = none → ∀ k, ¬ occursAt pat l k := by
  intro l
  induction l with
  | nil =>
    intro h k
    rw [findSubIdx] at h
    split at h
    next => exact absurd h (by simp)
    next hc => simpa [occursAt] using hc
  | cons x xs ih =>
    intro h k
    rw [findSubIdx] at h
    split at h
    next => exact absurd h (by simp)
    next hc =>
      have hx : findSubIdx pat xs = none := by
        cases hfx : findSubIdx pat xs
        · rfl
        · rw [hfx] at h
          simp at h
      cases k with
      | zero => simpa [occursAt] using hc
      | succ k' =>
        have := ih hx k'
        simpa [occursAt] using this

/-- C8 (amended to buffers that decode as UTF-8; `from_utf8` rejects other
buffers first, see `find_http_host_offset_c8_counterexample`): on valid
UTF-8 input, `find_http_host_offset` returns the offset immediately after
the first occurrence of the literal `"Host: "` when one exists, and `none`
when none exists. -/
theorem find_http_host_offset_c8 (buffer : List Nat)
    (hutf : utf8Valid buffer = true) :
    (∀ j, occursAt hostBytes buffer j →
      ∃ i, i ≤ j ∧
        find_http_host_offset buffer = some (i + hostBytes.length) ∧
        occursAt hostBytes buffer i ∧
        ∀ k, k < i → ¬ occursAt hostBytes buffer k) ∧
    ((∀ k, ¬ occursAt hostBytes buffer k) →
      find_http_host_offset buffer = none) := by
  constructor
  · intro j hj
    cases hfs : findSubIdx hostBytes buffer with
    | none => exact absurd hj (findSubIdx_none hostBytes buffer hfs j)
    | some i =>
      obtain ⟨hocc, hmin⟩ := findSubIdx_some hostBytes buffer i hfs
      refine ⟨i, ?_, ?_, hocc, hmin⟩
      · by_contra hlt
        exact hmin j (by omega) hj
      · unfold find_http_host_offset
        rw [if_pos hutf, hfs]
        rfl
  · intro hnone
    cases hfs : findSubIdx hostBytes buffer with
    | none =>
      unfold find_http_host_offset
      rw [if_pos hutf, hfs]
      rfl
    | some i =>
      obtain ⟨hocc, _⟩ := findSubIdx_some hostBytes buffer i hfs
      exact absurd hocc (hnone i)

/-- Witness for C8 at the concrete buffer `"Host: "` itself. -/
theorem find_http_host_offset_c8_witness :
    find_http_host_offset hostBytes = some (0 + hostBytes.length) := by
  obtain ⟨i, hle, heq, _, _⟩ :=
    (find_http_host_offset_c8 hostBytes (by decide)).1 0 (by decide)
  have hi : i = 0 := Nat.le_zero.mp hle
  rw [hi] at heq
  exact heq

/-- C8 counterexample to the claim "for every byte buffer": the buffer
`0xFF :: "Host: "` contains the literal `"Host: "` at index 1, yet the
function returns `none` because the buffer is not valid UTF-8. -/
theorem find_http_host_offset_c8_counterexample :
    occursAt hostBytes (255 :: hostBytes) 1 ∧
    find_http_host_offset (255 :: hostBytes) = none := by
  exact ⟨by decide, rfl⟩

/-- C9: after reading the method list, the SOCKS5 handshake proceeds with
the 2-byte auth reply `0x05 0x00` exactly when the list contains the no-auth
value `0x00`; `[0x01, 0x00, 0x02]` is accepted and `[0x01, 0x02]` is fatal
(the connection is torn down with no reply — the `fatal` outcome carries
none). -/
theorem socks5_method_c9 (methods : List Nat) :
    (socks5_method_step methods =
        AuthOutcome.proceed [SOCKS5_VERSION, SOCKS5_AUTH_NONE] ↔
      SOCKS5_AUTH_NONE ∈ methods) ∧
    socks5_method_step [0x01, 0x00, 0x02] =
      AuthOutcome.proceed [0x05, 0x00] ∧
    socks5_method_step [0x01, 0x02] = AuthOutcome.fatal := by
  refine ⟨?_, rfl, rfl⟩
  unfold socks5_method_step
  by_cases hm : SOCKS5_AUTH_NONE ∈ methods
  · simp [hm]
  · simp [hm]

/-- Witness for C9 at the concrete method list `[9, 0]`. -/
theorem socks5_method_c9_witness :
    socks5_method_step [9, 0] =
      AuthOutcome.proceed [SOCKS5_VERSION, SOCKS5_AUTH_NONE] :=
  (socks5_method_c9 [9, 0]).1.mpr (by simp [SOCKS5_AUTH_NONE])

/-- C3: evaluating `split_tls_record` at `position = 0` on a 10-byte buffer
passes the function's only guard (`buffer.len() < position + 5` is false)
and then computes the `usize` subtraction `position - 5 = 0 - 5`, which
aborts on arithmetic overflow (a panic under Rust's overflow checks; with
wrapping it writes the corrupted length bytes `0xFF 0xFB` instead of the
claimed `position − 5`): the code neither performs the described split nor
returns the invalid-input error. -/
theorem split_tls_record_c3_bug :
    split_tls_record [0x16, 0x03, 0x01, 0, 0, 0, 0, 0, 0, 0] 0 =
      TlsSplitResult.overflowAbort := rfl

/-- `calculate_offset` reads only the `offset` and `flags` fields of a rule,
so stripping `repeats`/`skip` does not change it. -/
theorem calculate_offset_strip (r : SplitConfig) (buffer : List Nat)
    (is_tls : Bool) :
    calculate_offset (stripRule r) buffer is_tls =
      calculate_offset r buffer is_tls := rfl

/-- The split loop only consumes each rule through `calculate_offset`, so
two rule lists equal after stripping drive it identically. -/
theorem splitLoop_strip (buffer : List Nat) (is_tls : Bool) :
    ∀ l1 l2 : List SplitConfig, l1.map stripRule = l2.map stripRule →
      ∀ lp, splitLoop buffer is_tls l1 lp = splitLoop buffer is_tls l2 lp := by
  intro l1
  induction l1 with
  | nil =>
    intro l2 h lp
    cases l2 with
    | nil => rfl
    | cons r2 t2 => simp at h
  | cons r1 t1 ih =>
    intro l2 h lp
    cases l2 with
    | nil => simp at h
    | cons r2 t2 =>
      simp only [List.map_cons, List.cons.injEq] at h
      obtain ⟨hr, ht⟩ := h
      have hco : calculate_offset r1 buffer is_tls =
          calculate_offset r2 buffer is_tls := by
        rw [← calculate_offset_strip r1, hr, calculate_offset_strip r2]
      simp only [splitLoop, hco]
      by_cases hc : lp < calculate_offset r2 buffer is_tls ∧
          calculate_offset r2 buffer is_tls ≤ buffer.length
      · rw [if_pos hc, if_pos hc, ih t2 ht]
      · rw [if_neg hc, if_neg hc, ih t2 ht]

/-- The disorder cut-point collection likewise only consumes rules through
`calculate_offset`. -/
theorem disorderFilter_strip (buffer : List Nat) (is_tls : Bool) :
    ∀ l1 l2 : List SplitConfig, l1.map stripRule = l2.map stripRule →
      l1.filterMap (fun disorder_cfg =>
        let pos := calculate_offset disorder_cfg buffer is_tls
        if pos ≤ buffer.length then some pos else none) =
      l2.filterMap (fun disorder_cfg =>
        let pos := calculate_offset disorder_cfg buffer is_tls
        if pos ≤ buffer.length then some pos else none) := by
  intro l1
  induction l1 with
  | nil =>
    intro l2 h
    cases l2 with
    | nil => rfl
    | cons r2 t2 => simp at h
  | cons r1 t1 ih =>
    intro l2 h
    cases l2 with
    | nil => simp at h
    | cons r2 t2 =>
      simp only [List.map_cons, List.cons.injEq] at h
      obtain ⟨hr, ht⟩ := h
      have hco : calculate_offset r1 buffer is_tls =
          calculate_offset r2 buffer is_tls := by
        rw [← calculate_offset_strip r1, hr, calculate_offset_strip r2]
      simp only [List.filterMap_cons, hco, ih t2 ht]

/-- Config-level consequence of `splitLoop_strip`. -/
theorem apply_split_writes_strip (p q : DesyncConfig) (buffer : List Nat)
    (is_tls : Bool) (h : p.split.map stripRule = q.split.map stripRule) :
    apply_split_writes p buffer is_tls = apply_split_writes q buffer is_tls := by
  unfold apply_split_writes
  rw [splitLoop_strip buffer is_tls p.split q.split h]

/-- Config-level consequence of `disorderFilter_strip`. -/
theorem apply_disorder_writes_strip (p q : DesyncConfig) (buffer : List Nat)
    (is_tls : Bool)
    (h : p.disorder.map stripRule = q.disorder.map stripRule) :
    apply_disorder_writes p buffer is_tls =
      apply_disorder_writes q buffer is_tls := by
  unfold apply_disorder_writes disorder_positions
  rw [disorderFilter_strip buffer is_tls p.disorder q.disorder h]

/-- The fake technique only consumes the head rule's `data` and its
placement rule via `calculate_offset`. -/
theorem apply_fake_writes_strip (p q : DesyncConfig) (buffer : List Nat)
    (is_tls : Bool) (h : p.fake.map stripFake = q.fake.map stripFake) :
    apply_fake_writes p buffer is_tls = apply_fake_writes q buffer is_tls := by
  unfold apply_fake_writes
  cases hp : p.fake with
  | nil =>
    cases hq : q.fake with
    | nil => rfl
    | cons f2 t2 =>
      rw [hp, hq] at h
      simp at h
  | cons f1 t1 =>
    cases hq : q.fake with
    | nil =>
      rw [hp, hq] at h
      simp at h
    | cons f2 t2 =>
      rw [hp, hq] at h
      simp only [List.map_cons, List.cons.injEq] at h
      obtain ⟨hf12, _⟩ := h
      have hdata : f1.data = f2.data := by
        have hcongr := congrArg FakeConfig.data hf12
        simpa [stripFake] using hcongr
      have hco : calculate_offset f1.split buffer is_tls =
          calculate_offset f2.split buffer is_tls := by
        have hcongr := congrArg FakeConfig.split hf12
        simp only [stripFake] at hcongr
        rw [← calculate_offset_strip f1.split, hcongr,
          calculate_offset_strip f2.split]
      simp only [hco, hdata]

/-- C10: the emitted instruction sequence of `apply_desync` is unchanged
between two policies that differ only in `repeats`/`skip` fields of rules
and/or the contents of `tls_rec` (i.e. whose `stripConfig` images agree):
those fields are accepted but never consumed. -/
theorem reserved_fields_ignored_c10 (buffer : List Nat)
    (p q : DesyncConfig) (h : stripConfig p = stripConfig q) :
    apply_desync_writes p buffer = apply_desync_writes q buffer := by
  have hsplit : p.split.map stripRule = q.split.map stripRule :=
    congrArg DesyncConfig.split h
  have hdis : p.disorder.map stripRule = q.disorder.map stripRule :=
    congrArg DesyncConfig.disorder h
  have hfake : p.fake.map stripFake = q.fake.map stripFake :=
    congrArg DesyncConfig.fake h
  have hempty : ∀ {α β : Type} (g : α → β) (l1 l2 : List α),
      l1.map g = l2.map g → l1.isEmpty = l2.isEmpty := by
    intro α β g l1 l2 hm
    cases l1 <;> cases l2 <;> simp_all
  unfold apply_desync_writes
  rw [hempty stripRule p.split q.split hsplit,
    hempty stripRule p.disorder q.disorder hdis,
    hempty stripFake p.fake q.fake hfake]
  dsimp only
  rw [apply_split_writes_strip p q buffer (is_tls_chello buffer) hsplit,
    apply_disorder_writes_strip p q buffer (is_tls_chello buffer) hdis,
    apply_fake_writes_strip p q buffer (is_tls_chello buffer) hfake]

/-- Witness for C10: two concrete policies differing in a `repeats` field,
a `skip` field and the `tls_rec` list produce identical writes on
`[7, 8, 9]`. -/
theorem reserved_fields_ignored_c10_witness :
    apply_desync_writes cfgReservedP [7, 8, 9] =
      apply_desync_writes cfgReservedQ [7, 8, 9] :=
  reserved_fields_ignored_c10 [7, 8, 9] cfgReservedP cfgReservedQ (by decide)

/-! #### Disorder (C4) -/

/-- `segsOf` on a singleton cut list is empty. -/
theorem segsOf_single (buffer : List Nat) (p : Nat) :
    segsOf buffer [p] = [] := rfl

/-- `segsOf` unfolds one segment at a time. -/
theorem segsOf_cons (buffer : List Nat) (p q : Nat) (rest : List Nat) :
    segsOf buffer (p :: q :: rest) =
      slice buffer p q :: segsOf buffer (q :: rest) := by
  unfold segsOf
  simp only [List.length_cons, Nat.add_sub_cancel]
  rw [List.range_succ_eq_map]
  simp [List.map_map, Function.comp, List.getD_cons_succ, List.getD_cons_zero]

/-- The reversed emission loop produces exactly the reversal of the
index-mapped forward segments. -/
theorem emitRev_eq (buffer : List Nat) (positions : List Nat) :
    ∀ n, emitRev buffer positions n =
      ((List.range n).map fun i =>
        slice buffer (positions.getD i 0) (positions.getD (i + 1) 0)).reverse := by
  intro n
  induction n with
  | zero => rfl
  | succ n ih =>
    rw [emitRev, ih, List.range_succ]
    simp

/-- `apply_disorder` emits precisely the forward segments of its cut-point
list, reversed. -/
theorem apply_disorder_writes_eq (config : DesyncConfig) (buffer : List Nat)
    (is_tls : Bool) :
    apply_disorder_writes config buffer is_tls =
      (segsOf buffer (disorder_positions config buffer is_tls)).reverse := by
  unfold apply_disorder_writes
  dsimp only
  rw [emitRev_eq]
  rfl

/-- Consecutive deduplication only removes elements. -/
theorem dedupConsec_sublist : ∀ l : List Nat, (dedupConsec l).Sublist l
  | [] => by simp [dedupConsec]
  | [a] => by simp [dedupConsec]
  | a :: b :: rest => by
    rw [dedupConsec]
    by_cases hab : a = b
    · rw [if_pos hab]
      exact (dedupConsec_sublist (b :: rest)).cons a
    · rw [if_neg hab]
      exact (dedupConsec_sublist (b :: rest)).cons₂ a

/-- Consecutive deduplication keeps the head. -/
theorem dedupConsec_head (l : List Nat) :
    ∀ a, (dedupConsec (a :: l)).head? = some a := by
  induction l with
  | nil => intro a; rfl
  | cons b rest ih =>
    intro a
    by_cases hab : a = b
    · rw [dedupConsec, if_pos hab, hab]
      exact ih b
    · rw [dedupConsec, if_neg hab]
      rfl

/-- Consecutive deduplication keeps the last element. -/
theorem dedupConsec_getLast (l : List Nat) :
    ∀ a, (dedupConsec (a :: l)).getLast? = (a :: l).getLast? := by
  induction l with
  | nil => intro a; rfl
  | cons b rest ih =>
    intro a
    by_cases hab : a = b
    · rw [dedupConsec, if_pos hab, ih b, List.getLast?_cons_cons]
    · rw [dedupConsec, if_neg hab]
      have hne : dedupConsec (b :: rest) ≠ [] := by
        intro hnil
        have hh := dedupConsec_head rest b
        rw [hnil] at hh
        exact absurd hh (by simp)
      obtain ⟨c, l', hcl⟩ := List.exists_cons_of_ne_nil hne
      rw [hcl, List.getLast?_cons_cons, ← hcl, ih b, List.getLast?_cons_cons]

/-- In a ≤-sorted list, a member below every element is the head. -/
theorem sorted_head_eq (S : List Nat) (hs : S.Sorted (· ≤ ·)) (m : Nat)
    (hm : m ∈ S) (hlb : ∀ x ∈ S, m ≤ x) : S.head? = some m := by
  cases S with
  | nil => simp at hm
  | cons s0 t =>
    have h1 : m ≤ s0 := hlb s0 (by simp)
    have h2 : s0 ≤ m := by
      rcases List.mem_cons.mp hm with rfl | hmt
      · exact le_rfl
      · exact List.rel_of_sorted_cons hs m hmt
    simp [Nat.le_antisymm h2 h1]

/-- In a ≤-sorted list, a member above every element is the last. -/
theorem sorted_getLast_eq (m : Nat) :
    ∀ S : List Nat, S.Sorted (· ≤ ·) → m ∈ S → (∀ x ∈ S, x ≤ m) →
      S.getLast? = some m := by
  intro S
  induction S with
  | nil => intro _ hm _; simp at hm
  | cons s0 t ih =>
    intro hs hm hub
    cases t with
    | nil =>
      have hms : m = s0 := by simpa using hm
      simp [hms]
    | cons s1 t' =>
      rw [List.getLast?_cons_cons]
      have hm' : m ∈ s1 :: t' := by
        rcases List.mem_cons.mp hm with rfl | h
        · have h1 : m ≤ s1 := List.rel_of_sorted_cons hs s1 (by simp)
          have h2 : s1 ≤ m := hub s1 (by simp)
          have hsm : s1 = m := Nat.le_antisymm h2 h1
          rw [hsm]
          exact List.mem_cons_self _ _
        · exact h
      exact ih hs.of_cons hm' fun x hx => hub x (List.mem_cons_of_mem s0 hx)

/-- The disorder cut-point list starts at 0, is ≤-sorted, and ends at the
buffer length. -/
theorem disorder_positions_struc (config : DesyncConfig) (buffer : List Nat)
    (is_tls : Bool) :
    ∃ rest, disorder_positions config buffer is_tls = 0 :: rest ∧
      (0 :: rest).Sorted (· ≤ ·) ∧
      (0 :: rest).getLast? = some buffer.length := by
  unfold disorder_positions
  dsimp only
  have hsortS := List.sorted_insertionSort (· ≤ ·)
    (0 :: (config.disorder.filterMap fun disorder_cfg =>
      let pos := calculate_offset disorder_cfg buffer is_tls
      if pos ≤ buffer.length then some pos else none) ++ [buffer.length])
  have hperm := List.perm_insertionSort (· ≤ ·)
    (0 :: (config.disorder.filterMap fun disorder_cfg =>
      let pos := calculate_offset disorder_cfg buffer is_tls
      if pos ≤ buffer.length then some pos else none) ++ [buffer.length])
  set S := List.insertionSort (· ≤ ·)
    (0 :: (config.disorder.filterMap fun disorder_cfg =>
      let pos := calculate_offset disorder_cfg buffer is_tls
      if pos ≤ buffer.length then some pos else none) ++ [buffer.length])
    with hSdef
  have hmem0 : 0 ∈ S := hperm.mem_iff.mpr (by simp)
  have hmemL : buffer.length ∈ S := hperm.mem_iff.mpr (by simp)
  have hboundS : ∀ x ∈ S, x ≤ buffer.length := by
    intro x hx
    have hxr := hperm.mem_iff.mp hx
    rcases List.mem_cons.mp hxr with rfl | hxr'
    · exact Nat.zero_le _
    · rcases List.mem_append.mp hxr' with hxf | hxl
      · obtain ⟨c, _, hc⟩ := List.mem_filterMap.mp hxf
        dsimp only at hc
        split at hc
        · injection hc with hc'
          omega
        · exact absurd hc (by simp)
      · have : x = buffer.length := by simpa using hxl
        omega
  have hhead : S.head? = some 0 :=
    sorted_head_eq S hsortS 0 hmem0 fun x _ => Nat.zero_le x
  have hlastS : S.getLast? = some buffer.length :=
    sorted_getLast_eq buffer.length S hsortS hmemL hboundS
  obtain ⟨tail, htail⟩ : ∃ tail, S = 0 :: tail := by
    cases hS : S with
    | nil => rw [hS] at hhead; exact absurd hhead (by simp)
    | cons s0 t =>
      rw [hS] at hhead
      have : s0 = 0 := by simpa using hhead
      exact ⟨t, by rw [this]⟩
  have hsorted' : (dedupConsec S).Sorted (· ≤ ·) :=
    List.Pairwise.sublist (dedupConsec_sublist S) hsortS
  have hlast' : (dedupConsec S).getLast? = some buffer.length := by
    rw [htail, dedupConsec_getLast tail 0, ← htail]
    exact hlastS
  have hhead' : (dedupConsec S).head? = some 0 := by
    rw [htail]
    exact dedupConsec_head tail 0
  obtain ⟨rest, hrest⟩ : ∃ rest, dedupConsec S = 0 :: rest := by
    cases hD : dedupConsec S with
    | nil => rw [hD] at hhead'; exact absurd hhead' (by simp)
    | cons d0 t' =>
      rw [hD] at hhead'
      have : d0 = 0 := by simpa using hhead'
      exact ⟨t', by rw [this]⟩
  refine ⟨rest, hrest, ?_, ?_⟩
  · rw [← hrest]
    exact hsorted'
  · rw [← hrest]
    exact hlast'

/-- Concatenating the forward segments of a sorted cut list that starts at
`p0` and ends at the buffer length yields the buffer's tail from `p0`. -/
theorem segsOf_flatten (buffer : List Nat) :
    ∀ (rest : List Nat) (p0 : Nat), (p0 :: rest).Sorted (· ≤ ·) →
      (p0 :: rest).getLast? = some buffer.length →
      (segsOf buffer (p0 :: rest)).flatten = buffer.drop p0 := by
  intro rest
  induction rest with
  | nil =>
    intro p0 _ hlast
    have hp0 : p0 = buffer.length := by simpa using hlast
    rw [segsOf_single, hp0]
    simp [List.drop_length]
  | cons p1 rest' ih =>
    intro p0 hsort hlast
    rw [segsOf_cons, List.flatten_cons]
    have h01 : p0 ≤ p1 := List.rel_of_sorted_cons hsort p1 (by simp)
    rw [List.getLast?_cons_cons] at hlast
    rw [ih p1 hsort.of_cons hlast, slice_append_drop buffer h01]

/-- C4: for a non-empty buffer and any disorder rules, the disorder
technique emits exactly the contiguous segments between the sorted,
deduplicated cut points (implicit boundaries 0 and `buffer.len()`
included), in strictly reverse forward-sequential order, and the multiset
union of the emitted segments is the original buffer. -/
theorem apply_disorder_c4 (config : DesyncConfig) (buffer : List Nat)
    (is_tls : Bool) (_hb : buffer ≠ []) :
    apply_disorder_writes config buffer is_tls =
      (segsOf buffer (disorder_positions config buffer is_tls)).reverse ∧
    (segsOf buffer (disorder_positions config buffer is_tls)).flatten =
      buffer ∧
    (apply_disorder_writes config buffer is_tls).flatten.Perm buffer := by
  obtain ⟨rest, hP, hsort, hlast⟩ :=
    disorder_positions_struc config buffer is_tls
  have h1 := apply_disorder_writes_eq config buffer is_tls
  have h2 : (segsOf buffer (disorder_positions config buffer is_tls)).flatten
      = buffer := by
    rw [hP, segsOf_flatten buffer rest 0 hsort hlast, List.drop_zero]
  refine ⟨h1, h2, ?_⟩
  rw [h1]
  have hp := (List.reverse_perm
    (segsOf buffer (disorder_positions config buffer is_tls))).flatten
  rw [h2] at hp
  exact hp

/-- Witness for C4 at a concrete policy and buffer. -/
theorem apply_disorder_c4_witness :
    apply_disorder_writes cfgDis [10, 20, 30, 40, 50] false =
      (segsOf [10, 20, 30, 40, 50]
        (disorder_positions cfgDis [10, 20, 30, 40, 50] false)).reverse :=
  (apply_disorder_c4 cfgDis [10, 20, 30, 40, 50] false (by simp)).1

end Stpro
